import Mathlib

/-!
Verification of the `lazycache` stale-while-revalidate cache.

The Go source (`lazycache.go`) is translated into a shallow embedding:

* Go `interface{}` values become `Option V` (`none` is Go `nil`).
* `time.Time` becomes `Nat`; `time.Now().After(expires)` is `expires < now`.
* The entry map `map[string]*Item` becomes an association list with
  Go-map update semantics (`setItems` replaces in place, `itemsLookup`
  finds the unique binding).
* A `Fetcher func(id string) (interface{}, error)` becomes
  `String → FetchOutcome V` where `FetchOutcome.err` is a non-nil error and
  `FetchOutcome.ok v` is a successful return of `v` (possibly nil).
* A `GroupFetcher func() (map[string]interface{}, error)` takes no
  arguments, so it is represented by the value it returns:
  `GroupOutcome.err` for a non-nil error, `GroupOutcome.ok none` for a
  `nil` map, `GroupOutcome.ok (some objects)` for a non-nil map given as
  an association list (keys unique in Go; hypothesised where needed).
* The nil-ness of the `fetcher` / `groupFetcher` fields is an `Option`
  around them (`SwapCache` and `NewGroup` can install `nil`).
* Each operation returns, besides its Go return values, the new cache
  state, the list of fetch-strategy invocations it performed
  synchronously (`Event`s), and the background refreshes it spawned with
  `go` (`BgTask`s, not yet executed; `runBg` executes one later).
  Calling a nil Go function would panic; those branches are totalised to
  a no-op and every theorem hypothesises the relevant function is set.
-/

namespace Lazycache

/-- One fetch-strategy call outcome: `err` is Go `err != nil`, `ok v` is a
successful return of the (possibly nil) object `v`. -/
inductive FetchOutcome (V : Type) where
  | err : FetchOutcome V
  | ok : Option V → FetchOutcome V
deriving DecidableEq

/-- One group-strategy call outcome: `err` is Go `err != nil`,
`ok none` is a successful return of a `nil` map, `ok (some objects)` a
successful return of a non-nil map. -/
inductive GroupOutcome (V : Type) where
  | err : GroupOutcome V
  | ok : Option (List (String × Option V)) → GroupOutcome V
deriving DecidableEq

/-- `type Item struct { object interface{}; expires time.Time }` -/
structure Item (V : Type) where
  object : Option V
  expires : Nat
deriving DecidableEq

/-- `type LazyCache struct { fetcher; groupFetcher; ttl; lock; items }`
(the lock is concurrency scaffolding with no sequential content). -/
structure LazyCache (V : Type) where
  fetcher : Option (String → FetchOutcome V)
  groupFetcher : Option (GroupOutcome V)
  ttl : Nat
  items : List (String × Item V)

/-- A synchronous invocation of a fetch strategy. -/
inductive Event where
  | singleFetch : String → Event
  | groupFetch : Event
deriving DecidableEq

/-- A background refresh spawned with `go` but not yet executed. -/
inductive BgTask where
  | single : String → BgTask
  | group : String → BgTask
deriving DecidableEq

/-- Lookup in the entry map: `item, exists := cache.items[id]`. -/
def itemsLookup : List (String × Item V) → String → Option (Item V)
  | [], _ => none
  | (k, it) :: rest, id => if k = id then some it else itemsLookup rest id

/-- Go-map store: replace the binding for `id` in place, else append. -/
def setItems : List (String × Item V) → String → Item V → List (String × Item V)
  | [], id, it => [(id, it)]
  | (k, cur) :: rest, id, it =>
      if k = id then (k, it) :: rest else (k, cur) :: setItems rest id it

/-- Result of `Fetch` / `groupFetch`: the two Go return values, the new
cache state, and the synchronous strategy invocations performed. -/
structure OpResult (V : Type) where
  value : Option V
  found : Bool
  state : LazyCache V
  events : List Event

/-- Result of `Get`: as `OpResult`, plus the spawned background tasks. -/
structure GetResult (V : Type) where
  value : Option V
  found : Bool
  state : LazyCache V
  events : List Event
  spawned : List BgTask

/-- `func (cache *LazyCache) Set(id string, object interface{})`. -/
def LazyCache.Set (cache : LazyCache V) (now : Nat) (id : String) (object : Option V) :
    LazyCache V :=
  { cache with items := setItems cache.items id ⟨object, now + cache.ttl⟩ }

/-- `func (cache *LazyCache) Fetch(id string) (interface{}, bool)`. -/
def LazyCache.Fetch (cache : LazyCache V) (now : Nat) (id : String) : OpResult V :=
  match cache.fetcher with
  | none => ⟨none, false, cache, []⟩
  | some f =>
    match f id with
    | .err => ⟨none, false, cache, [.singleFetch id]⟩
    | .ok object => ⟨object, object.isSome, cache.Set now id object, [.singleFetch id]⟩

/-- The `for k, v := range objects` loop of `groupFetch`: `Set` every
pair, and assign `res = v` whenever `k == id`. -/
def LazyCache.groupStore (cache : LazyCache V) (now : Nat) (id : String) (res : Option V) :
    List (String × Option V) → Option V × LazyCache V
  | [] => (res, cache)
  | (k, v) :: rest =>
      (cache.Set now k v).groupStore now id (if k = id then v else res) rest

/-- `func (cache *LazyCache) groupFetch(id string) (interface{}, bool)`. -/
def LazyCache.groupFetch (cache : LazyCache V) (now : Nat) (id : String) : OpResult V :=
  match cache.groupFetcher with
  | none => ⟨none, false, cache, []⟩
  | some gr =>
    match gr with
    | .err =>
      match cache.fetcher with
      | none => ⟨none, false, cache, [.groupFetch]⟩
      | some _ =>
        let r := cache.Fetch now id
        ⟨r.value, r.found, r.state, .groupFetch :: r.events⟩
    | .ok none =>
      match cache.fetcher with
      | none => ⟨none, false, cache, [.groupFetch]⟩
      | some _ =>
        let r := cache.Fetch now id
        ⟨r.value, r.found, r.state, .groupFetch :: r.events⟩
    | .ok (some objects) =>
      let r := cache.groupStore now id none objects
      ⟨r.1, r.1.isSome, r.2, [.groupFetch]⟩

/-- `func (cache *LazyCache) Get(id string) (interface{}, bool)`. -/
def LazyCache.Get (cache : LazyCache V) (now : Nat) (id : String) : GetResult V :=
  match itemsLookup cache.items id with
  | none =>
    if cache.groupFetcher.isSome then
      let r := cache.groupFetch now id
      ⟨r.value, r.found, r.state, r.events, []⟩
    else
      let r := cache.Fetch now id
      ⟨r.value, r.found, r.state, r.events, []⟩
  | some item =>
    ⟨item.object, item.object.isSome, cache, [],
      if item.expires < now then
        [if cache.groupFetcher.isSome then BgTask.group id else BgTask.single id]
      else []⟩

/-- `func (cache *LazyCache) SwapCache(fetcher, groupFetcher) *LazyCache`. -/
def LazyCache.SwapCache (cache : LazyCache V) (fetcher : Option (String → FetchOutcome V))
    (groupFetcher : Option (GroupOutcome V)) : LazyCache V :=
  { cache with fetcher := fetcher, groupFetcher := groupFetcher }

/-- Execute one spawned background refresh (`go cache.Fetch(id)` or
`go cache.groupFetch(id)`), discarding its return values. -/
def LazyCache.runBg (cache : LazyCache V) (now : Nat) : BgTask → LazyCache V × List Event
  | .single id => let r := cache.Fetch now id; (r.state, r.events)
  | .group id => let r := cache.groupFetch now id; (r.state, r.events)

/-- The value the `range` loop of `groupFetch` leaves for key `k`:
`some v` if some pair assigns `v` to `k` (last assignment wins, matching
both the loop's `res` and the repeated `Set`s), else `none`. -/
def lastAssign : List (String × Option V) → String → Option (Option V)
  | [], _ => none
  | (k', v') :: rest, k =>
      match lastAssign rest k with
      | some v => some v
      | none => if k' = k then some v' else none

/-! ### Basic lemmas about the entry map and the group-store loop -/

theorem itemsLookup_setItems (items : List (String × Item V)) (id k : String) (it : Item V) :
    itemsLookup (setItems items id it) k =
      if id = k then some it else itemsLookup items k := by
  induction items with
  | nil =>
      by_cases h : id = k <;> simp [setItems, itemsLookup, h]
  | cons p rest ih =>
      obtain ⟨k', cur⟩ := p
      by_cases h1 : k' = id
      · subst h1
        by_cases h2 : k' = k <;> simp [setItems, itemsLookup, h2]
      · by_cases h2 : k' = k
        · subst h2
          have : ¬ id = k' := fun h => h1 h.symm
          simp [setItems, itemsLookup, h1, this]
        · simp [setItems, itemsLookup, h1, h2, ih]

theorem itemsLookup_Set (cache : LazyCache V) (now : Nat) (id k : String) (object : Option V) :
    itemsLookup (cache.Set now id object).items k =
      if id = k then some ⟨object, now + cache.ttl⟩ else itemsLookup cache.items k := by
  simp [LazyCache.Set, itemsLookup_setItems]

@[simp] theorem Set_fetcher (cache : LazyCache V) (now : Nat) (id : String) (object : Option V) :
    (cache.Set now id object).fetcher = cache.fetcher := rfl

@[simp] theorem Set_groupFetcher (cache : LazyCache V) (now : Nat) (id : String)
    (object : Option V) :
    (cache.Set now id object).groupFetcher = cache.groupFetcher := rfl

@[simp] theorem Set_ttl (cache : LazyCache V) (now : Nat) (id : String) (object : Option V) :
    (cache.Set now id object).ttl = cache.ttl := rfl

theorem groupStore_fst (objects : List (String × Option V)) :
    ∀ (cache : LazyCache V) (now : Nat) (id : String) (res : Option V),
      (cache.groupStore now id res objects).1 = (lastAssign objects id).getD res := by
  induction objects with
  | nil => intro cache now id res; simp [LazyCache.groupStore, lastAssign]
  | cons p rest ih =>
      intro cache now id res
      obtain ⟨k', v'⟩ := p
      rw [LazyCache.groupStore, ih]
      cases h : lastAssign rest id with
      | some v => simp [lastAssign, h]
      | none => by_cases hk : k' = id <;> simp [lastAssign, h, hk]

theorem groupStore_lookup (objects : List (String × Option V)) :
    ∀ (cache : LazyCache V) (now : Nat) (id k : String) (res : Option V),
      itemsLookup (cache.groupStore now id res objects).2.items k =
        match lastAssign objects k with
        | some v => some ⟨v, now + cache.ttl⟩
        | none => itemsLookup cache.items k := by
  induction objects with
  | nil => intro cache now id k res; simp [LazyCache.groupStore, lastAssign]
  | cons p rest ih =>
      intro cache now id k res
      obtain ⟨k', v'⟩ := p
      rw [LazyCache.groupStore, ih]
      cases h : lastAssign rest k with
      | some v => simp [lastAssign, h]
      | none =>
          by_cases hk : k' = k <;>
            simp [lastAssign, h, hk, itemsLookup_Set]

theorem groupStore_fetcher (objects : List (String × Option V)) :
    ∀ (cache : LazyCache V) (now : Nat) (id : String) (res : Option V),
      (cache.groupStore now id res objects).2.fetcher = cache.fetcher := by
  induction objects with
  | nil => intro cache now id res; rfl
  | cons p rest ih =>
      intro cache now id res
      obtain ⟨k', v'⟩ := p
      rw [LazyCache.groupStore, ih]
      rfl

theorem groupStore_groupFetcher (objects : List (String × Option V)) :
    ∀ (cache : LazyCache V) (now : Nat) (id : String) (res : Option V),
      (cache.groupStore now id res objects).2.groupFetcher = cache.groupFetcher := by
  induction objects with
  | nil => intro cache now id res; rfl
  | cons p rest ih =>
      intro cache now id res
      obtain ⟨k', v'⟩ := p
      rw [LazyCache.groupStore, ih]
      rfl

theorem groupStore_ttl (objects : List (String × Option V)) :
    ∀ (cache : LazyCache V) (now : Nat) (id : String) (res : Option V),
      (cache.groupStore now id res objects).2.ttl = cache.ttl := by
  induction objects with
  | nil => intro cache now id res; rfl
  | cons p rest ih =>
      intro cache now id res
      obtain ⟨k', v'⟩ := p
      rw [LazyCache.groupStore, ih]
      rfl

theorem lastAssign_of_forall_ne (objects : List (String × Option V)) (k : String)
    (h : ∀ p ∈ objects, p.1 ≠ k) : lastAssign objects k = none := by
  induction objects with
  | nil => rfl
  | cons p rest ih =>
      obtain ⟨k', v'⟩ := p
      have hk : ¬ k' = k := h (k', v') (List.mem_cons_self _ _)
      have hrest := ih fun q hq => h q (List.mem_cons_of_mem _ hq)
      simp [lastAssign, hrest, hk]

theorem lastAssign_of_nodup (objects : List (String × Option V))
    (hnd : (objects.map Prod.fst).Nodup) :
    ∀ p ∈ objects, lastAssign objects p.1 = some p.2 := by
  induction objects with
  | nil => intro p hp; cases hp
  | cons q rest ih =>
      intro p hp
      obtain ⟨k', v'⟩ := q
      rw [List.map_cons, List.nodup_cons] at hnd
      rcases List.mem_cons.mp hp with heq | hmem
      · subst heq
        have hne : ∀ r ∈ rest, r.1 ≠ k' := by
          intro r hr hcontra
          have hmem : r.1 ∈ List.map Prod.fst rest := List.mem_map_of_mem Prod.fst hr
          exact hnd.1 (hcontra ▸ hmem)
        simp [lastAssign, lastAssign_of_forall_ne rest k' hne]
      · simp [lastAssign, ih hnd.2 p hmem]

/-! ### The `found = (value != nil)` invariant on every return path -/

theorem Fetch_found_eq (cache : LazyCache V) (now : Nat) (id : String) :
    (cache.Fetch now id).found = (cache.Fetch now id).value.isSome := by
  rcases hf : cache.fetcher with _ | f
  · simp [LazyCache.Fetch, hf]
  · rcases ho : f id with _ | v <;> simp [LazyCache.Fetch, hf, ho]

theorem groupFetch_found_eq (cache : LazyCache V) (now : Nat) (id : String) :
    (cache.groupFetch now id).found = (cache.groupFetch now id).value.isSome := by
  rcases hg : cache.groupFetcher with _ | gr
  · simp [LazyCache.groupFetch, hg]
  · rcases gr with _ | objects
    · rcases hf : cache.fetcher with _ | f
      · simp [LazyCache.groupFetch, hg, hf]
      · simpa [LazyCache.groupFetch, hg, hf] using Fetch_found_eq cache now id
    · rcases objects with _ | objects
      · rcases hf : cache.fetcher with _ | f
        · simp [LazyCache.groupFetch, hg, hf]
        · simpa [LazyCache.groupFetch, hg, hf] using Fetch_found_eq cache now id
      · simp [LazyCache.groupFetch, hg]

theorem Get_found_eq (cache : LazyCache V) (now : Nat) (id : String) :
    (cache.Get now id).found = (cache.Get now id).value.isSome := by
  rcases hit : itemsLookup cache.items id with _ | item
  · by_cases hg : cache.groupFetcher.isSome
    · simpa [LazyCache.Get, hit, hg] using groupFetch_found_eq cache now id
    · simpa [LazyCache.Get, hit, hg] using Fetch_found_eq cache now id
  · simp [LazyCache.Get, hit]

/-! ### Claim theorems -/

/-- C1: for a key whose entry has expired (`now > expires`), `Get` returns the
previously stored (stale) value synchronously, leaves the map untouched,
performs no synchronous fetch, and spawns exactly one background refresh —
a group fetch if a group strategy is configured, else a single fetch — whose
outcome therefore cannot reach the current caller. -/
theorem c1_get_expired_returns_stale_and_spawns (cache : LazyCache V) (now : Nat)
    (id : String) (item : Item V) (hit : itemsLookup cache.items id = some item)
    (hexp : item.expires < now) :
    cache.Get now id =
      ⟨item.object, item.object.isSome, cache, [],
        [if cache.groupFetcher.isSome then BgTask.group id else BgTask.single id]⟩ := by
  simp [LazyCache.Get, hit, hexp]

/-- A single-strategy cache holding one already-expired entry. -/
def staleCache : LazyCache Nat :=
  ⟨some fun _ => FetchOutcome.ok (some 7), none, 5, [("a", ⟨some 3, 2⟩)]⟩

theorem c1_witness :
    itemsLookup staleCache.items "a" = some ⟨some 3, 2⟩ ∧
    (⟨some 3, 2⟩ : Item Nat).expires < 10 ∧
    staleCache.Get 10 "a" = ⟨some 3, true, staleCache, [], [BgTask.single "a"]⟩ :=
  ⟨by decide, by decide, by
    simpa [staleCache] using
      c1_get_expired_returns_stale_and_spawns staleCache 10 "a" ⟨some 3, 2⟩
        (by decide) (by decide)⟩

/-- C2: for a key holding an entry that is not expired (`now ≤ expires`),
`Get` returns the stored value unchanged, leaves the state untouched, and
invokes no fetch strategy, synchronously or in the background. -/
theorem c2_get_fresh_hit_no_fetch (cache : LazyCache V) (now : Nat) (id : String)
    (item : Item V) (hit : itemsLookup cache.items id = some item)
    (hfresh : now ≤ item.expires) :
    cache.Get now id = ⟨item.object, item.object.isSome, cache, [], []⟩ := by
  simp [LazyCache.Get, hit, Nat.not_lt.mpr hfresh]

/-- A single-strategy cache holding one still-fresh entry. -/
def freshCache : LazyCache Nat :=
  ⟨some fun _ => FetchOutcome.ok (some 7), none, 5, [("a", ⟨some 3, 20⟩)]⟩

theorem c2_witness :
    itemsLookup freshCache.items "a" = some ⟨some 3, 20⟩ ∧
    (10 : Nat) ≤ (⟨some 3, 20⟩ : Item Nat).expires ∧
    freshCache.Get 10 "a" = ⟨some 3, true, freshCache, [], []⟩ :=
  ⟨by decide, by decide, by
    simpa using c2_get_fresh_hit_no_fetch freshCache 10 "a" ⟨some 3, 20⟩
      (by decide) (by decide)⟩

/-- C10: for a key whose entry holds a nil value and is not yet expired
(`now ≤ expires`), `Get` returns `(nil, false)` without invoking any fetch
strategy and without spawning a background refresh: the cached absent result
suppresses all fetch attempts until the TTL elapses. -/
theorem c10_cached_nil_suppresses_fetch (cache : LazyCache V) (now : Nat) (id : String)
    (item : Item V) (hit : itemsLookup cache.items id = some item)
    (hnil : item.object = none) (hfresh : now ≤ item.expires) :
    cache.Get now id = ⟨none, false, cache, [], []⟩ := by
  simp [LazyCache.Get, hit, hnil, Nat.not_lt.mpr hfresh]

/-- A single-strategy cache holding one still-fresh nil entry. -/
def nilCache : LazyCache Nat :=
  ⟨some fun _ => FetchOutcome.ok (some 7), none, 5, [("a", ⟨none, 20⟩)]⟩

theorem c10_witness :
    itemsLookup nilCache.items "a" = some ⟨none, 20⟩ ∧
    (⟨none, 20⟩ : Item Nat).object = none ∧
    (10 : Nat) ≤ (⟨none, 20⟩ : Item Nat).expires ∧
    nilCache.Get 10 "a" = ⟨none, false, nilCache, [], []⟩ :=
  ⟨by decide, by decide, by decide, by
    simpa using c10_cached_nil_suppresses_fetch nilCache 10 "a" ⟨none, 20⟩
      (by decide) (by decide) (by decide)⟩

/-- C9: on every return path of `Get`, `Fetch` and `groupFetch` — miss,
fresh hit, stale hit, fetch error, group success and fallback — the returned
boolean equals `value != nil`: no call returns `(nil, true)` or a non-nil
value paired with `false`. -/
theorem c9_found_iff_value_present (cache : LazyCache V) (now : Nat) (id : String) :
    (cache.Get now id).found = (cache.Get now id).value.isSome ∧
    (cache.Fetch now id).found = (cache.Fetch now id).value.isSome ∧
    (cache.groupFetch now id).found = (cache.groupFetch now id).value.isSome :=
  ⟨Get_found_eq cache now id, Fetch_found_eq cache now id,
    groupFetch_found_eq cache now id⟩

/-- C4: if the single-key fetch function returns an error, `Fetch` returns
`(nil, false)` and does not mutate the map; a subsequent `Get` still returns
the prior entry's value, and on a key with no entry (and no group strategy
routing around the single fetcher) `Get` reports not-found and stores
nothing. -/
theorem c4_fetch_error_preserves_map (cache : LazyCache V) (now now2 : Nat) (id : String)
    (f : String → FetchOutcome V) (hf : cache.fetcher = some f)
    (he : f id = FetchOutcome.err) :
    cache.Fetch now id = ⟨none, false, cache, [Event.singleFetch id]⟩ ∧
    (∀ item : Item V, itemsLookup cache.items id = some item →
      ((cache.Fetch now id).state.Get now2 id).value = item.object ∧
      ((cache.Fetch now id).state.Get now2 id).found = item.object.isSome) ∧
    (itemsLookup cache.items id = none → cache.groupFetcher = none →
      cache.Get now id = ⟨none, false, cache, [Event.singleFetch id], []⟩) := by
  have hFetch : cache.Fetch now id = ⟨none, false, cache, [Event.singleFetch id]⟩ := by
    simp [LazyCache.Fetch, hf, he]
  refine ⟨hFetch, ?_, ?_⟩
  · intro item hit
    rw [hFetch]
    simp [LazyCache.Get, hit]
  · intro hmiss hg
    simp [LazyCache.Get, hmiss, hg, hFetch]

/-- A single-strategy cache whose fetcher always errors, holding one entry. -/
def errCache : LazyCache Nat :=
  ⟨some fun _ => FetchOutcome.err, none, 5, [("a", ⟨some 3, 2⟩)]⟩

theorem c4_witness :
    errCache.Fetch 0 "a" = ⟨none, false, errCache, [Event.singleFetch "a"]⟩ ∧
    ((errCache.Fetch 0 "a").state.Get 10 "a").value = some 3 ∧
    errCache.Get 0 "b" = ⟨none, false, errCache, [Event.singleFetch "b"], []⟩ := by
  obtain ⟨h1, h2, -⟩ :=
    c4_fetch_error_preserves_map errCache 0 10 "a" (fun _ => FetchOutcome.err) rfl rfl
  obtain ⟨-, -, h3⟩ :=
    c4_fetch_error_preserves_map errCache 0 10 "b" (fun _ => FetchOutcome.err) rfl rfl
  exact ⟨h1, by simpa using (h2 ⟨some 3, 2⟩ (by decide)).1, h3 (by decide) rfl⟩

/-- An entry cannot both hold a present object and equal one holding nil. -/
theorem flip_contra {item item' : Item V} (hsome : item.object.isSome = true)
    (hnil' : item'.object = none) (h : item = item') : False := by
  rw [h, hnil'] at hsome
  simp at hsome

/-- If `Fetch` turns a previously present value for `k` into a stored nil,
then `k` was the fetched key and the fetcher succeeded with nil on it. -/
theorem Fetch_flip_to_nil (cache : LazyCache V) (now : Nat) (id k : String)
    (item item' : Item V) (hk : itemsLookup cache.items k = some item)
    (hsome : item.object.isSome = true)
    (hk' : itemsLookup (cache.Fetch now id).state.items k = some item')
    (hnil' : item'.object = none) :
    k = id ∧ ∃ f, cache.fetcher = some f ∧ f k = FetchOutcome.ok none := by
  rcases hf : cache.fetcher with _ | f
  · have hstate : (cache.Fetch now id).state = cache := by simp [LazyCache.Fetch, hf]
    rw [hstate, hk] at hk'
    injection hk' with h
    exact (flip_contra hsome hnil' h).elim
  · rcases ho : f id with _ | v
    · have hstate : (cache.Fetch now id).state = cache := by simp [LazyCache.Fetch, hf, ho]
      rw [hstate, hk] at hk'
      injection hk' with h
      exact (flip_contra hsome hnil' h).elim
    · have hstate : (cache.Fetch now id).state = cache.Set now id v := by
        simp [LazyCache.Fetch, hf, ho]
      rw [hstate, itemsLookup_Set] at hk'
      by_cases hik : id = k
      · rw [if_pos hik] at hk'
        injection hk' with h
        have hv : v = none := by rw [← h] at hnil'; exact hnil'
        subst hv
        subst hik
        exact ⟨rfl, f, rfl, ho⟩
      · rw [if_neg hik, hk] at hk'
        injection hk' with h
        exact (flip_contra hsome hnil' h).elim

/-- The state after `groupFetch` equals the state after `Fetch` whenever the
group call errored or returned a nil map. -/
theorem groupFetch_fallback_state (cache : LazyCache V) (now : Nat) (id : String)
    (gr : GroupOutcome V) (hg : cache.groupFetcher = some gr)
    (hfail : gr = GroupOutcome.err ∨ gr = GroupOutcome.ok none) :
    (cache.groupFetch now id).state = (cache.Fetch now id).state := by
  rcases hfail with rfl | rfl <;>
    rcases hf : cache.fetcher with _ | f <;>
      simp [LazyCache.groupFetch, LazyCache.Fetch, hg, hf]

/-- C5 counterexample: a successful group fetch whose mapping assigns nil to
key `k` flips `k` from present to not-found with no single-key fetch at all
(the cache has no single fetcher), so the single-key succeed-with-nil path is
not the only such mechanism. -/
def groupNilCache : LazyCache Nat :=
  ⟨none, some (GroupOutcome.ok (some [("k", none)])), 5, [("k", ⟨some 99, 100⟩)]⟩

theorem c5_counterexample :
    groupNilCache.fetcher = none ∧
    itemsLookup groupNilCache.items "k" = some ⟨some 99, 100⟩ ∧
    itemsLookup (groupNilCache.groupFetch 0 "k").state.items "k" = some ⟨none, 5⟩ ∧
    (groupNilCache.groupFetch 0 "k").events = [Event.groupFetch] ∧
    ((groupNilCache.groupFetch 0 "k").state.Get 1 "k").value = none ∧
    ((groupNilCache.groupFetch 0 "k").state.Get 1 "k").found = false :=
  ⟨rfl, by decide, by decide, by decide, by decide, by decide⟩

/-- C5 (amended): a single-key fetch succeeding with nil stores that nil,
overwriting any prior value, and a subsequent `Get` reports not-found.
Moreover the only mechanisms by which a present value for `k` becomes a
stored nil are fetches succeeding with nil for `k`: through `Fetch`, the
single fetcher succeeded with nil on `k` (and `k` was the fetched key);
through `groupFetch`, either the group mapping assigned nil to `k`, or the
single-key fallback succeeded with nil on `k`. -/
theorem c5_nil_success_erases (cache : LazyCache V) (now now2 : Nat) (id : String) :
    (∀ f, cache.fetcher = some f → f id = FetchOutcome.ok none →
      cache.Fetch now id = ⟨none, false, cache.Set now id none, [Event.singleFetch id]⟩ ∧
      itemsLookup (cache.Fetch now id).state.items id = some ⟨none, now + cache.ttl⟩ ∧
      ((cache.Fetch now id).state.Get now2 id).value = none ∧
      ((cache.Fetch now id).state.Get now2 id).found = false) ∧
    (∀ (k : String) (item item' : Item V), itemsLookup cache.items k = some item →
      item.object.isSome = true →
      itemsLookup (cache.Fetch now id).state.items k = some item' → item'.object = none →
      k = id ∧ ∃ f, cache.fetcher = some f ∧ f k = FetchOutcome.ok none) ∧
    (∀ (k : String) (item item' : Item V), itemsLookup cache.items k = some item →
      item.object.isSome = true →
      itemsLookup (cache.groupFetch now id).state.items k = some item' →
      item'.object = none →
      (∃ objects, cache.groupFetcher = some (GroupOutcome.ok (some objects)) ∧
        lastAssign objects k = some none) ∨
      (k = id ∧ ∃ f, cache.fetcher = some f ∧ f k = FetchOutcome.ok none)) := by
  refine ⟨?_, ?_, ?_⟩
  · intro f hf hnil
    have hFetch : cache.Fetch now id =
        ⟨none, false, cache.Set now id none, [Event.singleFetch id]⟩ := by
      simp [LazyCache.Fetch, hf, hnil]
    have hlook : itemsLookup (cache.Fetch now id).state.items id =
        some ⟨none, now + cache.ttl⟩ := by
      rw [hFetch]
      simp [itemsLookup_Set]
    refine ⟨hFetch, hlook, ?_, ?_⟩ <;> simp [LazyCache.Get, hlook]
  · intro k item item' hk hsome hk' hnil'
    exact Fetch_flip_to_nil cache now id k item item' hk hsome hk' hnil'
  · intro k item item' hk hsome hk' hnil'
    rcases hg : cache.groupFetcher with _ | gr
    · have hstate : (cache.groupFetch now id).state = cache := by
        simp [LazyCache.groupFetch, hg]
      rw [hstate, hk] at hk'
      injection hk' with h
      exact (flip_contra hsome hnil' h).elim
    · rcases gr with _ | objects
      · rw [groupFetch_fallback_state cache now id _ hg (Or.inl rfl)] at hk'
        exact Or.inr (Fetch_flip_to_nil cache now id k item item' hk hsome hk' hnil')
      · rcases objects with _ | objects
        · rw [groupFetch_fallback_state cache now id _ hg (Or.inr rfl)] at hk'
          exact Or.inr (Fetch_flip_to_nil cache now id k item item' hk hsome hk' hnil')
        · have hstate : (cache.groupFetch now id).state =
              (cache.groupStore now id none objects).2 := by
            simp [LazyCache.groupFetch, hg]
          rw [hstate, groupStore_lookup] at hk'
          cases hla : lastAssign objects k with
          | none =>
              rw [hla] at hk'
              simp only at hk'
              rw [hk] at hk'
              injection hk' with h
              exact (flip_contra hsome hnil' h).elim
          | some v =>
              rw [hla] at hk'
              simp only at hk'
              injection hk' with h
              have hv : v = none := by rw [← h] at hnil'; exact hnil'
              subst hv
              exact Or.inl ⟨objects, rfl, hla⟩

/-- A single-strategy cache whose fetcher succeeds with nil, holding one
present entry. -/
def nilSuccessCache : LazyCache Nat :=
  ⟨some fun _ => FetchOutcome.ok none, none, 5, [("k", ⟨some 9, 3⟩)]⟩

theorem c5_witness :
    itemsLookup (nilSuccessCache.Fetch 0 "k").state.items "k" = some ⟨none, 5⟩ ∧
    ((nilSuccessCache.Fetch 0 "k").state.Get 1 "k").found = false ∧
    ("k" = "k" ∧ ∃ f, nilSuccessCache.fetcher = some f ∧
      f "k" = FetchOutcome.ok none) ∧
    ((∃ objects, groupNilCache.groupFetcher = some (GroupOutcome.ok (some objects)) ∧
        lastAssign objects "k" = some none) ∨
      ("k" = "k" ∧ ∃ f, groupNilCache.fetcher = some f ∧
        f "k" = FetchOutcome.ok none)) := by
  obtain ⟨h1, h2, -⟩ := c5_nil_success_erases nilSuccessCache 0 1 "k"
  obtain ⟨-, -, h3⟩ := c5_nil_success_erases groupNilCache 0 1 "k"
  obtain ⟨-, hl, -, hfound⟩ := h1 (fun _ => FetchOutcome.ok none) rfl rfl
  refine ⟨hl, hfound, ?_, ?_⟩
  · exact h2 "k" ⟨some 9, 3⟩ ⟨none, 5⟩ (by decide) (by decide) hl rfl
  · exact h3 "k" ⟨some 99, 100⟩ ⟨none, 5⟩ (by decide) (by decide) (by decide) rfl

/-- C8: `SwapCache` replaces both strategies while leaving every cached
entry (and the TTL) unchanged; after the swap a still-fresh key is returned
by `Get` with no strategy invocation, an expired key spawns a background
refresh of the newly installed kind, and a missing key is fetched with the
newly installed single fetcher (when the new group strategy is absent) or
the newly installed group strategy (when present). -/
theorem c8_swap_preserves_entries_uses_new_strategy (cache : LazyCache V)
    (f : Option (String → FetchOutcome V)) (g : Option (GroupOutcome V))
    (now : Nat) (id : String) :
    (cache.SwapCache f g).items = cache.items ∧
    (cache.SwapCache f g).ttl = cache.ttl ∧
    (cache.SwapCache f g).fetcher = f ∧
    (cache.SwapCache f g).groupFetcher = g ∧
    (∀ item : Item V, itemsLookup cache.items id = some item → now ≤ item.expires →
      (cache.SwapCache f g).Get now id =
        ⟨item.object, item.object.isSome, cache.SwapCache f g, [], []⟩) ∧
    (∀ item : Item V, itemsLookup cache.items id = some item → item.expires < now →
      (cache.SwapCache f g).Get now id =
        ⟨item.object, item.object.isSome, cache.SwapCache f g, [],
          [if g.isSome then BgTask.group id else BgTask.single id]⟩) ∧
    (itemsLookup cache.items id = none → g = none → ∀ f', f = some f' →
      ((cache.SwapCache f g).Get now id).events = [Event.singleFetch id] ∧
      (f' id = FetchOutcome.err →
        (cache.SwapCache f g).Get now id =
          ⟨none, false, cache.SwapCache f g, [Event.singleFetch id], []⟩) ∧
      (∀ v, f' id = FetchOutcome.ok v →
        (cache.SwapCache f g).Get now id =
          ⟨v, v.isSome, (cache.SwapCache f g).Set now id v,
            [Event.singleFetch id], []⟩)) ∧
    (itemsLookup cache.items id = none → g.isSome = true →
      ((cache.SwapCache f g).Get now id).events.head? = some Event.groupFetch) := by
  refine ⟨rfl, rfl, rfl, rfl, ?_, ?_, ?_, ?_⟩
  · intro item hit hfresh
    simp [LazyCache.Get, LazyCache.SwapCache, hit, Nat.not_lt.mpr hfresh]
  · intro item hit hexp
    simp [LazyCache.Get, LazyCache.SwapCache, hit, hexp]
  · intro hmiss hgnone f' hf'
    subst hgnone
    subst hf'
    refine ⟨?_, ?_, ?_⟩
    · rcases ho : f' id with _ | v <;>
        simp [LazyCache.Get, LazyCache.Fetch, LazyCache.SwapCache, hmiss, ho]
    · intro ho
      simp [LazyCache.Get, LazyCache.Fetch, LazyCache.SwapCache, hmiss, ho]
    · intro v ho
      simp [LazyCache.Get, LazyCache.Fetch, LazyCache.SwapCache, hmiss, ho]
  · intro hmiss hgs
    rcases g with _ | gr
    · simp at hgs
    · rcases gr with _ | objects
      · rcases f with _ | f2 <;>
          simp [LazyCache.Get, LazyCache.groupFetch, LazyCache.SwapCache, hmiss]
      · rcases objects with _ | objects
        · rcases f with _ | f2 <;>
            simp [LazyCache.Get, LazyCache.groupFetch, LazyCache.SwapCache, hmiss]
        · simp [LazyCache.Get, LazyCache.groupFetch, LazyCache.SwapCache, hmiss]

/-- The replacement single fetcher installed by the C8 witness swap. -/
def newFetcher : String → FetchOutcome Nat := fun _ => FetchOutcome.ok (some 42)

theorem c8_witness :
    (freshCache.SwapCache (some newFetcher) none).items = freshCache.items ∧
    (freshCache.SwapCache (some newFetcher) none).Get 10 "a" =
      ⟨some 3, true, freshCache.SwapCache (some newFetcher) none, [], []⟩ ∧
    ((freshCache.SwapCache (some newFetcher) none).Get 10 "b").events =
      [Event.singleFetch "b"] ∧
    (freshCache.SwapCache (some newFetcher) none).Get 10 "b" =
      ⟨some 42, true,
        (freshCache.SwapCache (some newFetcher) none).Set 10 "b" (some 42),
        [Event.singleFetch "b"], []⟩ := by
  obtain ⟨hitems, -, -, -, hfresh, -, -, -⟩ :=
    c8_swap_preserves_entries_uses_new_strategy freshCache (some newFetcher) none 10 "a"
  obtain ⟨-, -, -, -, -, -, hmiss, -⟩ :=
    c8_swap_preserves_entries_uses_new_strategy freshCache (some newFetcher) none 10 "b"
  obtain ⟨hev, -, hok⟩ := hmiss (by decide) rfl newFetcher rfl
  exact ⟨hitems, by simpa using hfresh ⟨some 3, 20⟩ (by decide) (by decide), hev,
    by simpa using hok (some 42) rfl⟩

/-- C7: a group fetch succeeding with a non-empty mapping stores every
key/value pair with its own fresh expiry `now + ttl`, leaves unmentioned
keys untouched, performs no fallback, and returns the value the mapping
associates with the requested key; a mapping not containing the requested
key still counts as success and reports the key absent. -/
theorem c7_group_success_stores_all (cache : LazyCache V) (now : Nat) (id : String)
    (objects : List (String × Option V))
    (hg : cache.groupFetcher = some (GroupOutcome.ok (some objects)))
    (_hne : objects ≠ []) (hnd : (objects.map Prod.fst).Nodup) :
    (cache.groupFetch now id).events = [Event.groupFetch] ∧
    (∀ p ∈ objects,
      itemsLookup (cache.groupFetch now id).state.items p.1 =
        some ⟨p.2, now + cache.ttl⟩) ∧
    (∀ k : String, (∀ p ∈ objects, p.1 ≠ k) →
      itemsLookup (cache.groupFetch now id).state.items k =
        itemsLookup cache.items k) ∧
    (∀ p ∈ objects, p.1 = id → (cache.groupFetch now id).value = p.2) ∧
    ((∀ p ∈ objects, p.1 ≠ id) →
      (cache.groupFetch now id).value = none ∧
      (cache.groupFetch now id).found = false) := by
  have hstate : (cache.groupFetch now id).state =
      (cache.groupStore now id none objects).2 := by
    simp [LazyCache.groupFetch, hg]
  have hval : (cache.groupFetch now id).value =
      (lastAssign objects id).getD none := by
    simp [LazyCache.groupFetch, hg, groupStore_fst]
  have hfound : (cache.groupFetch now id).found =
      ((lastAssign objects id).getD none).isSome := by
    simp [LazyCache.groupFetch, hg, groupStore_fst]
  refine ⟨by simp [LazyCache.groupFetch, hg], ?_, ?_, ?_, ?_⟩
  · intro p hp
    rw [hstate, groupStore_lookup, lastAssign_of_nodup objects hnd p hp]
  · intro k hk
    rw [hstate, groupStore_lookup, lastAssign_of_forall_ne objects k hk]
  · intro p hp hpid
    rw [hval, ← hpid, lastAssign_of_nodup objects hnd p hp]
    rfl
  · intro hk
    rw [hval, hfound, lastAssign_of_forall_ne objects id hk]
    exact ⟨rfl, rfl⟩

/-- A group-only cache whose mapping covers two keys. -/
def groupCache : LazyCache Nat :=
  ⟨none, some (GroupOutcome.ok (some [("A", some 1), ("B", some 2)])), 5, []⟩

theorem c7_witness :
    itemsLookup (groupCache.groupFetch 0 "A").state.items "A" = some ⟨some 1, 5⟩ ∧
    itemsLookup (groupCache.groupFetch 0 "A").state.items "B" = some ⟨some 2, 5⟩ ∧
    (groupCache.groupFetch 0 "A").events = [Event.groupFetch] ∧
    ((groupCache.groupFetch 0 "C").value = none ∧
      (groupCache.groupFetch 0 "C").found = false) := by
  obtain ⟨hev, hstore, -, -, -⟩ :=
    c7_group_success_stores_all groupCache 0 "A" [("A", some 1), ("B", some 2)]
      rfl (by decide) (by decide)
  obtain ⟨-, -, -, -, habs⟩ :=
    c7_group_success_stores_all groupCache 0 "C" [("A", some 1), ("B", some 2)]
      rfl (by decide) (by decide)
  refine ⟨?_, ?_, hev, habs ?_⟩
  · simpa using hstore ("A", some 1) (by simp)
  · simpa using hstore ("B", some 2) (by simp)
  · intro p hp
    simp only [List.mem_cons, List.not_mem_nil, or_false] at hp
    rcases hp with rfl | rfl <;> decide

/-- C6 counterexample: the group strategy returns an empty (non-nil)
mapping and a single-key fallback is configured, yet no fallback fetch
occurs: `groupFetch` takes the success path, stores nothing, and reports
the key absent. -/
def emptyGroupCache : LazyCache Nat :=
  ⟨some fun _ => FetchOutcome.ok (some 7), some (GroupOutcome.ok (some [])), 5, []⟩

theorem c6_counterexample :
    emptyGroupCache.fetcher.isSome = true ∧
    emptyGroupCache.groupFetcher = some (GroupOutcome.ok (some [])) ∧
    (emptyGroupCache.groupFetch 0 "k").events = [Event.groupFetch] ∧
    (emptyGroupCache.groupFetch 0 "k").value = none ∧
    (emptyGroupCache.groupFetch 0 "k").found = false ∧
    (emptyGroupCache.groupFetch 0 "k").state.items = [] :=
  ⟨rfl, by decide, by decide, by decide, by decide, by decide⟩

/-- C6 (amended): when the group fetch returns an error or an absent (nil)
mapping, the cache falls back to exactly one single-key fetch for the
requested key with full single-key semantics if a single strategy is
configured, and otherwise reports the key absent leaving the map untouched;
an empty-but-present mapping instead counts as a successful group fetch —
no fallback, key reported absent, map untouched. -/
theorem c6_group_failure_falls_back (cache : LazyCache V) (now : Nat) (id : String)
    (gr : GroupOutcome V) (hg : cache.groupFetcher = some gr) :
    ((gr = GroupOutcome.err ∨ gr = GroupOutcome.ok none) →
      (cache.fetcher = none →
        cache.groupFetch now id = ⟨none, false, cache, [Event.groupFetch]⟩) ∧
      (∀ f, cache.fetcher = some f →
        ((cache.groupFetch now id).events =
            [Event.groupFetch, Event.singleFetch id] ∧
          (f id = FetchOutcome.err →
            cache.groupFetch now id =
              ⟨none, false, cache, [Event.groupFetch, Event.singleFetch id]⟩) ∧
          (∀ v, f id = FetchOutcome.ok v →
            cache.groupFetch now id =
              ⟨v, v.isSome, cache.Set now id v,
                [Event.groupFetch, Event.singleFetch id]⟩)))) ∧
    (gr = GroupOutcome.ok (some []) →
      cache.groupFetch now id = ⟨none, false, cache, [Event.groupFetch]⟩) := by
  constructor
  · intro hfail
    constructor
    · intro hf
      rcases hfail with rfl | rfl <;> simp [LazyCache.groupFetch, hg, hf]
    · intro f hf
      refine ⟨?_, ?_, ?_⟩
      · rcases ho : f id with _ | v <;> rcases hfail with rfl | rfl <;>
          simp [LazyCache.groupFetch, LazyCache.Fetch, hg, hf, ho]
      · intro ho
        rcases hfail with rfl | rfl <;>
          simp [LazyCache.groupFetch, LazyCache.Fetch, hg, hf, ho]
      · intro v ho
        rcases hfail with rfl | rfl <;>
          simp [LazyCache.groupFetch, LazyCache.Fetch, hg, hf, ho]
  · rintro rfl
    simp [LazyCache.groupFetch, hg, LazyCache.groupStore]

/-- A cache whose group strategy errors and whose single fallback succeeds
with 7. -/
def fallbackCache : LazyCache Nat :=
  ⟨some fun _ => FetchOutcome.ok (some 7), some GroupOutcome.err, 5, []⟩

theorem c6_witness :
    ((fallbackCache.groupFetch 0 "k").events =
      [Event.groupFetch, Event.singleFetch "k"]) ∧
    fallbackCache.groupFetch 0 "k" =
      ⟨some 7, true, fallbackCache.Set 0 "k" (some 7),
        [Event.groupFetch, Event.singleFetch "k"]⟩ ∧
    emptyGroupCache.groupFetch 0 "k" =
      ⟨none, false, emptyGroupCache, [Event.groupFetch]⟩ := by
  obtain ⟨hfail, -⟩ :=
    c6_group_failure_falls_back fallbackCache 0 "k" GroupOutcome.err rfl
  obtain ⟨-, hempty⟩ :=
    c6_group_failure_falls_back emptyGroupCache 0 "k" (GroupOutcome.ok (some [])) rfl
  obtain ⟨-, hfun⟩ := hfail (Or.inl rfl)
  obtain ⟨hev, -, hok⟩ := hfun (fun _ => FetchOutcome.ok (some 7)) rfl
  exact ⟨hev, by simpa using hok (some 7) rfl, hempty rfl⟩

/-- C3 counterexample: on a miss with an erroring group strategy and a
succeeding single fallback, `Get` performs two strategy invocations, stores
the fallback result, and returns `(7, true)` — not `(nil, false)` with
nothing stored. -/
theorem c3_counterexample :
    itemsLookup fallbackCache.items "k" = none ∧
    fallbackCache.groupFetcher = some GroupOutcome.err ∧
    (fallbackCache.Get 0 "k").value = some 7 ∧
    (fallbackCache.Get 0 "k").found = true ∧
    (fallbackCache.Get 0 "k").events = [Event.groupFetch, Event.singleFetch "k"] ∧
    itemsLookup (fallbackCache.Get 0 "k").state.items "k" = some ⟨some 7, 5⟩ :=
  ⟨by decide, by decide, by decide, by decide, by decide, by decide⟩

/-- C3 (amended): on a miss, `Get` consults the configured strategies
synchronously, spawning no background work. With only a single strategy it
performs exactly one single fetch: on success the result is stored and
`(value, value != nil)` returned, on error nothing is stored and
`(nil, false)` returned. With a group strategy it performs one group fetch:
a present mapping (even empty) is stored wholesale and the requested key's
mapped value returned; on group error or a nil mapping, with no single
fallback nothing is stored and `(nil, false)` returned, while with a single
fallback one additional single fetch runs and its store/return rules
decide the outcome. -/
theorem c3_miss_fetches_synchronously (cache : LazyCache V) (now : Nat) (id : String)
    (hmiss : itemsLookup cache.items id = none) :
    (cache.Get now id).spawned = [] ∧
    (cache.groupFetcher = none → ∀ f, cache.fetcher = some f →
      ((cache.Get now id).events = [Event.singleFetch id] ∧
        (f id = FetchOutcome.err →
          cache.Get now id = ⟨none, false, cache, [Event.singleFetch id], []⟩) ∧
        (∀ v, f id = FetchOutcome.ok v →
          cache.Get now id =
            ⟨v, v.isSome, cache.Set now id v, [Event.singleFetch id], []⟩))) ∧
    (∀ objects, cache.groupFetcher = some (GroupOutcome.ok (some objects)) →
      cache.Get now id =
        ⟨(lastAssign objects id).getD none, ((lastAssign objects id).getD none).isSome,
          (cache.groupStore now id none objects).2, [Event.groupFetch], []⟩) ∧
    (∀ gr, cache.groupFetcher = some gr →
      (gr = GroupOutcome.err ∨ gr = GroupOutcome.ok none) →
      ((cache.fetcher = none →
          cache.Get now id = ⟨none, false, cache, [Event.groupFetch], []⟩) ∧
        (∀ f, cache.fetcher = some f →
          ((f id = FetchOutcome.err →
              cache.Get now id =
                ⟨none, false, cache, [Event.groupFetch, Event.singleFetch id], []⟩) ∧
            (∀ v, f id = FetchOutcome.ok v →
              cache.Get now id =
                ⟨v, v.isSome, cache.Set now id v,
                  [Event.groupFetch, Event.singleFetch id], []⟩))))) := by
  refine ⟨?_, ?_, ?_, ?_⟩
  · by_cases hgs : cache.groupFetcher.isSome <;> simp [LazyCache.Get, hmiss, hgs]
  · intro hg f hf
    refine ⟨?_, ?_, ?_⟩
    · rcases ho : f id with _ | v <;>
        simp [LazyCache.Get, LazyCache.Fetch, hmiss, hg, hf, ho]
    · intro ho
      simp [LazyCache.Get, LazyCache.Fetch, hmiss, hg, hf, ho]
    · intro v ho
      simp [LazyCache.Get, LazyCache.Fetch, hmiss, hg, hf, ho]
  · intro objects hg
    simp [LazyCache.Get, LazyCache.groupFetch, hmiss, hg, groupStore_fst]
  · intro gr hg hfail
    constructor
    · intro hf
      rcases hfail with rfl | rfl <;>
        simp [LazyCache.Get, LazyCache.groupFetch, hmiss, hg, hf]
    · intro f hf
      constructor
      · intro ho
        rcases hfail with rfl | rfl <;>
          simp [LazyCache.Get, LazyCache.groupFetch, LazyCache.Fetch, hmiss, hg, hf, ho]
      · intro v ho
        rcases hfail with rfl | rfl <;>
          simp [LazyCache.Get, LazyCache.groupFetch, LazyCache.Fetch, hmiss, hg, hf, ho]

theorem c3_witness :
    (freshCache.Get 10 "b").spawned = [] ∧
    freshCache.Get 10 "b" =
      ⟨some 7, true, freshCache.Set 10 "b" (some 7), [Event.singleFetch "b"], []⟩ ∧
    (groupCache.Get 0 "A").value = some 1 ∧
    fallbackCache.Get 0 "k" =
      ⟨some 7, true, fallbackCache.Set 0 "k" (some 7),
        [Event.groupFetch, Event.singleFetch "k"], []⟩ := by
  obtain ⟨hsp, hsingle, -, -⟩ := c3_miss_fetches_synchronously freshCache 10 "b" (by decide)
  obtain ⟨-, -, hgroup, -⟩ := c3_miss_fetches_synchronously groupCache 0 "A" (by decide)
  obtain ⟨-, -, -, hfall⟩ := c3_miss_fetches_synchronously fallbackCache 0 "k" (by decide)
  obtain ⟨-, -, hok⟩ := hsingle rfl (fun _ => FetchOutcome.ok (some 7)) rfl
  obtain ⟨-, hfb⟩ := hfall GroupOutcome.err rfl (Or.inl rfl)
  obtain ⟨-, hfbok⟩ := hfb (fun _ => FetchOutcome.ok (some 7)) rfl
  refine ⟨hsp, by simpa using hok (some 7) rfl, ?_, by simpa using hfbok (some 7) rfl⟩
  have h := hgroup [("A", some 1), ("B", some 2)] rfl
  rw [h]
  decide

end Lazycache
